import Mathlib

/-!
Verification of the `ts-enum-util` enum lookup library (`src/enums.ts`).

The development shallowly embeds the JavaScript values and the functions of
`src/enums.ts` into Lean:

* `JSNum` models a JavaScript number restricted to the integer fragment:
  every number appearing in the library's contracts here is an integer or
  `NaN`.  Non-integer numeric syntax in `Number(...)` parsing is outside the
  modelled fragment and maps to `NaN`.
* `JSValue` models the JavaScript primitive values that flow through the
  comparison pipeline (`string`, `number`, `boolean`, `null`, `undefined`).
* `JSInput` models an arbitrary value handed to the structural validator:
  a primitive, a plain object (its own enumerable string-keyed properties,
  in iteration order), or an array.
* An enum-like object that already has the statically-checked TypeScript
  type `EnumLike` is modelled as a `List (String × EnumValue)` carrying its
  own properties in key-iteration order (the enums in question use
  identifier keys, for which JavaScript iteration order is insertion
  order).  JavaScript objects never hold two properties with the same key,
  so theorems that need it take a `Nodup` hypothesis on the key list.
-/

/-- JavaScript number, restricted to the integer fragment plus `NaN`. -/
inductive JSNum where
  | int (i : Int)
  | nan
deriving DecidableEq, Repr

/-- JavaScript primitive value, as flows through the comparison pipeline. -/
inductive JSValue where
  | str (s : String)
  | num (n : JSNum)
  | boolean (b : Bool)
  | nullV
  | undef
deriving DecidableEq, Repr

/-- `typeof v === 'string'` for a primitive value. -/
def JSValue.isString : JSValue → Bool
  | .str _ => true
  | _ => false

/-- `typeof v === 'number'` for a primitive value. -/
def JSValue.isNumber : JSValue → Bool
  | .num _ => true
  | _ => false

/-- `v == null`, i.e. `v` is `null` or `undefined`. -/
def JSValue.isNullish : JSValue → Bool
  | .nullV => true
  | .undef => true
  | _ => false

/-- JavaScript strict equality `===` on primitive values.  `NaN` is not
strictly equal to anything, itself included. -/
def strictEq : JSValue → JSValue → Bool
  | .str a, .str b => a == b
  | .num (.int i), .num (.int j) => i == j
  | .num _, .num _ => false
  | .boolean x, .boolean y => x == y
  | .nullV, .nullV => true
  | .undef, .undef => true
  | _, _ => false

/-- Strip leading and trailing whitespace, as `String.prototype.trim`. -/
def jsTrim (s : String) : String :=
  ⟨((s.data.dropWhile Char.isWhitespace).reverse.dropWhile Char.isWhitespace).reverse⟩

/-- Lower-case a string, as `String.prototype.toLowerCase` (ASCII fragment). -/
def jsToLower (s : String) : String :=
  ⟨s.data.map Char.toLower⟩

/-- Parse a non-empty run of decimal digits. -/
def parseDigitsAux : List Char → Nat → Option Nat
  | [], acc => some acc
  | c :: rest, acc =>
    if c.isDigit then parseDigitsAux rest (acc * 10 + (c.toNat - 48)) else none

/-- Parse a non-empty all-digit character list to its numeric value. -/
def parseDigits : List Char → Option Nat
  | [] => none
  | cs => parseDigitsAux cs 0

/-- JavaScript `Number(...)` applied to an already-trimmed string: the empty
string yields `0`, an optionally-signed decimal integer literal yields its
value, and anything else yields `NaN` (non-integer numeric syntax is outside
the modelled fragment). -/
def jsStringToNumber (s : String) : JSNum :=
  match s.data with
  | [] => .int 0
  | '+' :: rest =>
    match parseDigits rest with
    | some n => .int n
    | none => .nan
  | '-' :: rest =>
    match parseDigits rest with
    | some n => .int (-(n : Int))
    | none => .nan
  | l =>
    match parseDigits l with
    | some n => .int n
    | none => .nan

/-- JavaScript `String(...)` on a primitive value. -/
def jsToString : JSValue → String
  | .str s => s
  | .num (.int i) => toString i
  | .num .nan => "NaN"
  | .boolean b => if b then "true" else "false"
  | .nullV => "null"
  | .undef => "undefined"

/-- JavaScript `Number(...)` coercion on a primitive value. -/
def jsNumberCoerce : JSValue → JSNum
  | .num n => n
  | .str s => jsStringToNumber (jsTrim s)
  | .boolean b => .int (if b then 1 else 0)
  | .nullV => .int 0
  | .undef => .nan

/-- JavaScript multiplication on the modelled numbers: `NaN` is absorbing. -/
def jsNumMul : JSNum → JSNum → JSNum
  | .int i, .int j => .int (i * j)
  | _, _ => .nan

/-- The target type a comparison converts to: `'string' | 'number'`. -/
inductive TypeTag where
  | string
  | number
deriving DecidableEq, Repr

/-- Embeds `toNumber` of `src/enums.ts`: convert a value to a number,
`undefined` on failure. -/
def toNumber (value : JSValue) : JSValue :=
  match value with
  | .num n => if n = .nan then .undef else .num n
  | .str s =>
    let trimmed := jsTrim s
    let converted := jsStringToNumber trimmed
    if 0 < trimmed.data.length ∧ ¬ converted = .nan then .num converted else .undef
  | _ => JSValue.undef

/-- Embeds `passthrough` of `src/enums.ts`. -/
def passthrough (value : JSValue) : JSValue := value

/-- Embeds `lowerCaseIfString` of `src/enums.ts`. -/
def lowerCaseIfString : JSValue → JSValue
  | .str s => .str (jsToLower s)
  | v => v

/-- Embeds `defaultConverter` of `src/enums.ts`. -/
def defaultConverter (value : JSValue) (toType : TypeTag) : JSValue :=
  if toType = .string ∧ ¬ value.isString then .str (jsToString value)
  else if toType = .number ∧ ¬ value.isNumber then toNumber value
  else value

/-- Embeds the `EnumOptions` interface of `src/enums.ts`.  A caller-supplied
`normalize` or `converter` is an arbitrary function on primitive values. -/
structure EnumOptions where
  normalize : Option (JSValue → JSValue) := none
  ignoreCase : Bool := false
  convert : Bool := false
  converter : Option (JSValue → JSValue) := none

/-- Embeds `createConverter` of `src/enums.ts`. -/
def createConverter (toType : TypeTag) (customConverter : Option (JSValue → JSValue)) :
    JSValue → JSValue :=
  match customConverter with
  | some c => fun value => c value
  | none => fun value => defaultConverter value toType

/-- Embeds `equalFn` of `src/enums.ts`: the configurable comparison
predicate.  The expected type is read off the raw left operand `a`, the
operands are then normalized, optionally converted, and — in the string
case only — optionally case-folded before strict comparison. -/
def equalFn (options : EnumOptions) (a b : JSValue) : Bool :=
  let normalize := options.normalize.getD passthrough
  let lowerCase := if options.ignoreCase then lowerCaseIfString else passthrough
  let expectedType : TypeTag := if a.isString then .string else .number
  let a1 := normalize a
  let b1 := normalize b
  let convert :=
    if options.convert then createConverter expectedType options.converter else passthrough
  let a2 := convert a1
  let b2 := convert b1
  if ¬ expectedType = .string then
    strictEq a2 b2
  else
    strictEq (lowerCase a2) (lowerCase b2)

deriving instance DecidableEq for Except

/-- A statically well-typed enum member: a string or a number, as in the
TypeScript type `EnumValue`. -/
inductive EnumValue where
  | str (s : String)
  | num (n : JSNum)
deriving DecidableEq, Repr

/-- View a typed enum member as the primitive value it is at runtime. -/
def EnumValue.toJS : EnumValue → JSValue
  | .str s => .str s
  | .num n => .num n

/-- An enum member whose runtime value is `NaN`. -/
def EnumValue.isNaNv : EnumValue → Bool
  | .num .nan => true
  | _ => false

/-- An enum-like object of the TypeScript type `EnumLike`: its own
enumerable properties, in key-iteration order. -/
abbrev EnumObj : Type := List (String × EnumValue)

/-- `Object.keys` of an enum-like object. -/
def objKeys (enumObj : EnumObj) : List String := enumObj.map Prod.fst

/-- `Object.values` of an enum-like object. -/
def objValues (enumObj : EnumObj) : List EnumValue := enumObj.map Prod.snd

/-- The runtime property read `enumObj[key]`, yielding `undefined` when the
key is absent. -/
def objGetJS (enumObj : EnumObj) (key : String) : JSValue :=
  match enumObj.find? (fun p => p.1 == key) with
  | some p => p.2.toJS
  | none => JSValue.undef

/-- Shared zero/one/many shape of the singular lookups of `src/enums.ts`:
no match yields `undefined`, more than one match throws the given message,
and otherwise the single match is returned. -/
def pickUnique {α : Type} : List α → String → Except String (Option α)
  | [], _ => .ok none
  | [x], _ => .ok (some x)
  | _ :: _ :: _, msg => .error msg

/-- Embeds `enumValueByValue` of `src/enums.ts`.  `validateEnumLike` always
succeeds on a statically well-typed enum object (`validateEnumLike_typed`),
so only the non-unique-match throw remains as an error outcome. -/
def enumValueByValue (enumObj : EnumObj) (value : Option EnumValue)
    (options : EnumOptions) : Except String (Option EnumValue) :=
  match value with
  | none => .ok none
  | some v =>
    pickUnique ((objValues enumObj).filter (fun w => equalFn options w.toJS v.toJS))
      "Enum values are not unique. Cannot get value by value."

/-- Embeds `enumValueByKey` of `src/enums.ts`. -/
def enumValueByKey (enumObj : EnumObj) (key : Option String)
    (options : EnumOptions) : Except String (Option EnumValue) :=
  match key with
  | none => .ok none
  | some k =>
    match pickUnique ((objKeys enumObj).filter (fun x => equalFn options (.str x) (.str k)))
        "Enum keys are not unique. Cannot get value by key." with
    | .error e => .error e
    | .ok none => .ok none
    | .ok (some foundKey) => .ok ((enumObj.find? (fun p => p.1 == foundKey)).map Prod.snd)

/-- Embeds `enumKeysByValue` of `src/enums.ts`. -/
def enumKeysByValue (enumObj : EnumObj) (value : Option EnumValue)
    (options : EnumOptions) : List String :=
  match value with
  | none => []
  | some v => (objKeys enumObj).filter (fun k => equalFn options (objGetJS enumObj k) v.toJS)

/-- Embeds `enumKeyByKey` of `src/enums.ts`. -/
def enumKeyByKey (enumObj : EnumObj) (key : Option String)
    (options : EnumOptions) : Except String (Option String) :=
  match key with
  | none => .ok none
  | some k =>
    pickUnique ((objKeys enumObj).filter (fun x => equalFn options (.str x) (.str k)))
      "Enum keys are not unique. Cannot get key by key."

/-- Embeds `enumKeyByValue` of `src/enums.ts`. -/
def enumKeyByValue (enumObj : EnumObj) (value : Option EnumValue)
    (options : EnumOptions) : Except String (Option String) :=
  match value with
  | none => .ok none
  | some v =>
    pickUnique ((objKeys enumObj).filter (fun k => equalFn options (objGetJS enumObj k) v.toJS))
      "Enum values are not unique. Cannot get key by value."

/-- Embeds `isEnumValue` of `src/enums.ts`. -/
def isEnumValue (enumObj : EnumObj) (value : JSValue) (options : EnumOptions) : Bool :=
  if value.isNullish then false
  else (objValues enumObj).any (fun v => equalFn options v.toJS value)

/-- Embeds `toEnumValue` of `src/enums.ts`. -/
def toEnumValue (enumObj : EnumObj) (value : JSValue)
    (options : EnumOptions) : Except String (Option EnumValue) :=
  if value.isNullish then .ok none
  else
    pickUnique ((objValues enumObj).filter (fun w => equalFn options w.toJS value))
      "Enum values are not unique. Cannot get value by value."

/-- Embeds `isEnumKey` of `src/enums.ts`: with `convert` set the candidate
key is stringified first; a non-string candidate never scans. -/
def isEnumKey (enumObj : EnumObj) (key : JSValue) (options : EnumOptions) : Bool :=
  if key.isNullish then false
  else
    let compareKey := if options.convert then JSValue.str (jsToString key) else key
    match compareKey with
    | .str s => (objKeys enumObj).any (fun k => equalFn options (.str k) (.str s))
    | _ => false

/-- Embeds `toEnumKey` of `src/enums.ts`. -/
def toEnumKey (enumObj : EnumObj) (key : JSValue)
    (options : EnumOptions) : Except String (Option String) :=
  if key.isNullish then .ok none
  else
    let compareKey := if options.convert then JSValue.str (jsToString key) else key
    match compareKey with
    | .str s =>
      pickUnique ((objKeys enumObj).filter (fun k => equalFn options (.str k) (.str s)))
        "Enum keys are not unique. Cannot get key by key."
    | _ => .ok none

/-- Embeds `toEnumKeys` of `src/enums.ts`. -/
def toEnumKeys (enumObj : EnumObj) (value : JSValue) (options : EnumOptions) : List String :=
  if value.isNullish then []
  else (objKeys enumObj).filter (fun k => equalFn options (objGetJS enumObj k) value)

/-- An arbitrary value handed to the structural validator: a primitive, a
plain object (own enumerable string-keyed properties in iteration order),
or an array. -/
inductive JSInput where
  | prim (v : JSValue)
  | obj (entries : List (String × JSInput))
  | arr (elems : List JSInput)

/-- JavaScript `typeof`. -/
def jsTypeof : JSInput → String
  | .prim (.str _) => "string"
  | .prim (.num _) => "number"
  | .prim (.boolean _) => "boolean"
  | .prim .nullV => "object"
  | .prim .undef => "undefined"
  | .obj _ => "object"
  | .arr _ => "object"

/-- JavaScript falsiness: `null`, `undefined`, `false`, `0`, `NaN` and the
empty string are falsy; every object and array is truthy. -/
def jsFalsy : JSInput → Bool
  | .prim (.str s) => s == ""
  | .prim (.num (.int i)) => i == 0
  | .prim (.num .nan) => true
  | .prim (.boolean b) => !b
  | .prim .nullV => true
  | .prim .undef => true
  | .obj _ => false
  | .arr _ => false

/-- Array own enumerable entries: index strings `"0"`, `"1"`, … paired with
the elements, in ascending index order. -/
def arrEntriesFrom : Nat → List JSInput → List (String × JSInput)
  | _, [] => []
  | i, e :: rest => (toString i, e) :: arrEntriesFrom (i + 1) rest

/-- The own enumerable string-keyed properties seen by a
`for (const key in enumObj)` loop filtered with `Object.hasOwn`, in
iteration order.  (The validator only reaches this after its object guard,
so the primitive case is irrelevant and empty.) -/
def ownEntries : JSInput → List (String × JSInput)
  | .prim _ => []
  | .obj entries => entries
  | .arr elems => arrEntriesFrom 0 elems

mutual

/-- JavaScript `String(...)` on an arbitrary input: arrays join their
elements with commas and objects print as `[object Object]`.  (Real
`Array.prototype.join` renders `null` and `undefined` elements as empty
strings; that corner is approximated here and only affects the text of a
validation failure message for an array-valued property.) -/
def jsToStringInput : JSInput → String
  | .prim v => jsToString v
  | .obj _ => "[object Object]"
  | .arr elems => jsJoinInputs elems

def jsJoinInputs : List JSInput → String
  | [] => ""
  | [e] => jsToStringInput e
  | e :: rest => jsToStringInput e ++ "," ++ jsJoinInputs rest

end

/-- The property-value check of `isEnumLike` / `validateEnumLike`:
`typeof value` is `'string'` or `'number'`.  (The companion
`typeof key !== 'string'` guard of the source can never fire, because a
`for...in` loop only ever produces string keys.) -/
def isStringOrNumberType (v : JSInput) : Bool :=
  jsTypeof v == "string" || jsTypeof v == "number"

/-- Embeds `isEnumLike` of `src/enums.ts`. -/
def isEnumLike (enumObj : JSInput) : Bool :=
  if jsFalsy enumObj || jsTypeof enumObj != "object" then false
  else (ownEntries enumObj).all (fun p => isStringOrNumberType p.2)

/-- The property loop of `validateEnumLike`: the first disallowed value
raises a failure naming the value's string form. -/
def validateEntries : List (String × JSInput) → Except String Unit
  | [] => .ok ()
  | (_, v) :: rest =>
    if isStringOrNumberType v then validateEntries rest
    else
      let shown := jsToStringInput v
      .error ("Invalid enum value: " ++ shown ++ ". Expected string or number.")

/-- Embeds `validateEnumLike` of `src/enums.ts`. -/
def validateEnumLike (enumObj : JSInput) : Except String Unit :=
  if jsFalsy enumObj || jsTypeof enumObj != "object" then
    .error "The enum object is required."
  else validateEntries (ownEntries enumObj)

/-- View a statically well-typed enum object as a validator input. -/
def EnumObj.toInput (enumObj : EnumObj) : JSInput :=
  .obj (enumObj.map (fun p => (p.1, .prim p.2.toJS)))

/-- The conversion step of the specification's comparison pipeline, for a
given target type: with `convert` set, the custom converter if present and
otherwise the default converter; identity when `convert` is unset. -/
def specConvertStep (options : EnumOptions) (t : TypeTag) (v : JSValue) : JSValue :=
  if options.convert then
    match options.converter with
    | some c => c v
    | none => defaultConverter v t
  else v

/-- The case-folding step of the specification's comparison pipeline: fold
only when `ignoreCase` is set and the expected type is string. -/
def specCaseFoldStep (options : EnumOptions) (t : TypeTag) (v : JSValue) : JSValue :=
  if options.ignoreCase && t = .string then lowerCaseIfString v else v

/-- The specification's five-step comparison pipeline (normalize, determine
target type, convert, case-fold, strict compare), parameterized by how the
expected type is chosen from the raw and the normalized candidate. -/
def specPipeline (pickType : JSValue → JSValue → TypeTag)
    (options : EnumOptions) (a b : JSValue) : Bool :=
  let a1 := (options.normalize.getD passthrough) a
  let b1 := (options.normalize.getD passthrough) b
  let t := pickType a a1
  strictEq (specCaseFoldStep options t (specConvertStep options t a1))
    (specCaseFoldStep options t (specConvertStep options t b1))

/-- The comparison predicate exactly as the specification words it: the
expected type is read off the normalized candidate. -/
def equalFnSpecNormalizedType (options : EnumOptions) (a b : JSValue) : Bool :=
  specPipeline (fun _ a1 => if a1.isString then .string else .number) options a b

/-- The specification's pipeline amended to read the expected type off the
raw, pre-normalization candidate, as the source does. -/
def equalFnSpecRawType (options : EnumOptions) (a b : JSValue) : Bool :=
  specPipeline (fun a _ => if a.isString then .string else .number) options a b

/-- A normalize function that rewrites the number `1` to the string `"A"`
and leaves everything else alone. -/
def stringifyOneNormalize : JSValue → JSValue :=
  fun v => if v = .num (.int 1) then .str "A" else v

/-- The literal converter of specification scenario 5, applied to any
operand as the code does: double the numeric coercion of the value. -/
def claimDoublingConverter : JSValue → JSValue :=
  fun v => .num (jsNumMul (jsNumberCoerce v) (.int 2))

/-- The doubling converter the repository's test actually uses: numeric
strings are parsed and doubled, numbers pass through unchanged, and
everything else converts to `undefined`. -/
def testDoublingConverter : JSValue → JSValue := fun v =>
  match v with
  | .str s =>
    match jsNumberCoerce (.str s) with
    | .nan => .undef
    | .int i => .num (.int (i * 2))
  | .num n => .num n
  | _ => JSValue.undef

/-- The two-member mapping of specification scenario 5. -/
def twoEnum : EnumObj := [("Two", .num (.int 2))]

/-- The one-member numeric mapping of the conversion-idempotence property. -/
def oneEnum : EnumObj := [("One", .num (.int 1))]

/-- The color mapping with a duplicated value from the specification's
duplicate-detection scenario. -/
def colorEnum : EnumObj :=
  [("Red", .str "#ff0000"), ("Blue", .str "#0000ff"), ("AlsoBlue", .str "#0000ff")]

/-- With no options at all, the comparison predicate is exactly strict
equality. -/
theorem equalFn_default (a b : JSValue) : equalFn {} a b = strictEq a b := by
  cases a <;> rfl

/-- On a mapping with pairwise-distinct keys, the property read finds the
pair carrying the key. -/
theorem find?_key_of_mem {enumObj : EnumObj} {k : String} {v : EnumValue}
    (hnd : (objKeys enumObj).Nodup) (hm : (k, v) ∈ enumObj) :
    enumObj.find? (fun p => p.1 == k) = some (k, v) := by
  induction enumObj with
  | nil => cases hm
  | cons p rest ih =>
    simp only [objKeys, List.map_cons, List.nodup_cons] at hnd
    rcases List.mem_cons.mp hm with h | h
    · rw [← h]
      exact List.find?_cons_of_pos rest (by simp)
    · have hpk : ¬ (p.1 == k) = true := by
        simp only [beq_iff_eq]
        intro he
        exact hnd.1 (he ▸ List.mem_map.mpr ⟨(k, v), h, rfl⟩)
      rw [List.find?_cons_of_neg rest hpk]
      exact ih hnd.2 h

/-- On a mapping with pairwise-distinct keys, `enumObj[k]` is the runtime
view of the value paired with `k`. -/
theorem objGetJS_of_mem {enumObj : EnumObj} {k : String} {v : EnumValue}
    (hnd : (objKeys enumObj).Nodup) (hm : (k, v) ∈ enumObj) :
    objGetJS enumObj k = v.toJS := by
  unfold objGetJS
  rw [find?_key_of_mem hnd hm]

/-- On a mapping with pairwise-distinct keys, filtering the key list by a
predicate on the looked-up value is the same as filtering the entry list
and projecting the keys: both produce the matching keys in key-iteration
order. -/
theorem keys_filter_objGet {enumObj : EnumObj} (f : JSValue → Bool)
    (hnd : (objKeys enumObj).Nodup) :
    (objKeys enumObj).filter (fun k => f (objGetJS enumObj k)) =
      (enumObj.filter (fun p => f p.2.toJS)).map Prod.fst := by
  induction enumObj with
  | nil => rfl
  | cons p rest ih =>
    simp only [objKeys, List.map_cons, List.nodup_cons] at hnd
    have hhead : objGetJS (p :: rest) p.1 = p.2.toJS := by
      unfold objGetJS
      rw [List.find?_cons_of_pos rest (by simp)]
    have htail : (objKeys rest).filter (fun k => f (objGetJS (p :: rest) k)) =
        (objKeys rest).filter (fun k => f (objGetJS rest k)) := by
      apply List.filter_congr
      intro k hk
      have hne : ¬ (p.1 == k) = true := by
        simp only [beq_iff_eq]
        intro he
        exact hnd.1 (he ▸ hk)
      unfold objGetJS
      rw [List.find?_cons_of_neg rest hne]
    have ih2 := ih hnd.2
    simp only [objKeys] at htail ih2 ⊢
    rw [List.map_cons, List.filter_cons, hhead, List.filter_cons]
    cases hf : f p.2.toJS with
    | true => simp [hf, htail, ih2]
    | false => simp [hf, htail, ih2]

/-- A list containing two distinct elements has at least two elements, so
the singular-lookup result shape is the failure message. -/
theorem pickUnique_error_of_two {α : Type} {l : List α} {a b : α} {msg : String}
    (ha : a ∈ l) (hb : b ∈ l) (hab : a ≠ b) : pickUnique l msg = .error msg := by
  cases l with
  | nil => cases ha
  | cons x xs =>
    cases xs with
    | nil =>
      exact absurd ((List.mem_singleton.mp ha).trans (List.mem_singleton.mp hb).symm) hab
    | cons y t => rfl

/-- Filtering a duplicate-free list for one of its members leaves exactly
that member. -/
theorem filter_beq_of_nodup {α : Type} [BEq α] [LawfulBEq α] {l : List α} {a : α}
    (hnd : l.Nodup) (ha : a ∈ l) : l.filter (fun x => x == a) = [a] := by
  induction l with
  | nil => cases ha
  | cons x xs ih =>
    rcases List.nodup_cons.mp hnd with ⟨hnotin, hxs⟩
    rcases List.mem_cons.mp ha with h | h
    · rw [← h] at hnotin ⊢
      have hrest : xs.filter (fun x => x == a) = [] := by
        rw [List.filter_eq_nil_iff]
        intro b hb
        simp only [beq_iff_eq]
        intro hba
        exact hnotin (hba ▸ hb)
      have step : (a :: xs).filter (fun x => x == a) = a :: xs.filter (fun x => x == a) :=
        List.filter_cons_of_pos (by simp)
      rw [step, hrest]
    · have hxa : ¬ (x == a) = true := by
        simp only [beq_iff_eq]
        intro hx
        exact hnotin (hx ▸ h)
      have step : (x :: xs).filter (fun y => y == a) = xs.filter (fun y => y == a) :=
        List.filter_cons_of_neg hxa
      rw [step]
      exact ih hxs h

/-- Strict equality of runtime views of typed enum members coincides with
member equality, provided the right-hand member is not `NaN`. -/
theorem strictEq_toJS_iff {w v : EnumValue} (hv : v.isNaNv = false) :
    strictEq w.toJS v.toJS = true ↔ w = v := by
  cases w with
  | str s =>
    cases v with
    | str t => simp [EnumValue.toJS, strictEq]
    | num m => simp [EnumValue.toJS, strictEq]
  | num n =>
    cases v with
    | str t => simp [EnumValue.toJS, strictEq]
    | num m =>
      cases m with
      | nan => simp [EnumValue.isNaNv] at hv
      | int j =>
        cases n with
        | int i => simp [EnumValue.toJS, strictEq]
        | nan => simp [EnumValue.toJS, strictEq]

/-- On a mapping with pairwise-distinct values, filtering the entries for
strict equality with the (non-`NaN`) value of a member pair leaves exactly
that pair. -/
theorem filter_strictEq_of_nodup {enumObj : EnumObj} {K : String} {v : EnumValue}
    (hnd : (objValues enumObj).Nodup) (hm : (K, v) ∈ enumObj) (hv : v.isNaNv = false) :
    enumObj.filter (fun p => strictEq p.2.toJS v.toJS) = [(K, v)] := by
  induction enumObj with
  | nil => cases hm
  | cons p rest ih =>
    simp only [objValues, List.map_cons, List.nodup_cons] at hnd
    rcases List.mem_cons.mp hm with h | h
    · rw [← h] at hnd ⊢
      have hrest : rest.filter (fun p => strictEq p.2.toJS v.toJS) = [] := by
        rw [List.filter_eq_nil_iff]
        intro q hq hqv
        exact hnd.1 ((strictEq_toJS_iff hv).mp hqv ▸ List.mem_map.mpr ⟨q, hq, rfl⟩)
      have step : ((K, v) :: rest).filter (fun p => strictEq p.2.toJS v.toJS) =
          (K, v) :: rest.filter (fun p => strictEq p.2.toJS v.toJS) :=
        List.filter_cons_of_pos ((strictEq_toJS_iff hv).mpr rfl)
      rw [step, hrest]
    · have hne : ¬ strictEq p.2.toJS v.toJS = true := by
        intro hpv
        exact hnd.1 ((strictEq_toJS_iff hv).mp hpv ▸ List.mem_map.mpr ⟨(K, v), h, rfl⟩)
      have step : (p :: rest).filter (fun q => strictEq q.2.toJS v.toJS) =
          rest.filter (fun q => strictEq q.2.toJS v.toJS) :=
        List.filter_cons_of_neg hne
      rw [step]
      exact ih hnd.2 h

/-- The validation loop succeeds exactly when every property value has an
allowed type. -/
theorem validateEntries_ok_iff (l : List (String × JSInput)) :
    validateEntries l = .ok () ↔ l.all (fun p => isStringOrNumberType p.2) = true := by
  induction l with
  | nil => simp [validateEntries]
  | cons p rest ih =>
    obtain ⟨k, v⟩ := p
    cases hp : isStringOrNumberType v with
    | true => simp [validateEntries, hp, ih]
    | false => simp [validateEntries, hp]

/-- Every primitive value fails the object guard of the validator: it is
either falsy or of a non-object `typeof`. -/
theorem prim_guard_true (v : JSValue) :
    (jsFalsy (.prim v) || jsTypeof (.prim v) != "object") = true := by
  cases v with
  | str s =>
    have h : (("string" : String) != "object") = true := by decide
    simp [jsFalsy, jsTypeof, h]
  | num n =>
    have h : (("number" : String) != "object") = true := by decide
    cases n <;> simp [jsFalsy, jsTypeof, h]
  | boolean b =>
    have h : (("boolean" : String) != "object") = true := by decide
    simp [jsFalsy, jsTypeof, h]
  | nullV => rfl
  | undef => rfl

/-- The iteration entries of an array carry exactly its elements as
values, so the value check over them is the value check over the
elements. -/
theorem arrEntriesFrom_all (i : Nat) (es : List JSInput) :
    (arrEntriesFrom i es).all (fun p => isStringOrNumberType p.2) =
      es.all (fun e => isStringOrNumberType e) := by
  induction es generalizing i with
  | nil => rfl
  | cons e rest ih => simp [arrEntriesFrom, ih]

/-- The assertive validator accepts every statically well-typed enum
object, so the lookup embeddings over `EnumObj` carry no validation error
path. -/
theorem validateEnumLike_typed (enumObj : EnumObj) :
    validateEnumLike enumObj.toInput = .ok () := by
  have hguard : (jsFalsy enumObj.toInput || jsTypeof enumObj.toInput != "object") = false := by
    simp [EnumObj.toInput, jsFalsy, jsTypeof]
  unfold validateEnumLike
  rw [hguard]
  simp only [Bool.false_eq_true, if_false]
  rw [validateEntries_ok_iff]
  rw [List.all_eq_true]
  intro p hp
  simp only [EnumObj.toInput, ownEntries] at hp
  obtain ⟨q, _, rfl⟩ := List.mem_map.mp hp
  cases q.2 <;> rfl

/-- View an optional typed search term as the primitive value the wrapper
entry points receive: `undefined` when absent. -/
def optToJS : Option EnumValue → JSValue
  | none => .undef
  | some x => x.toJS

/-- C1 counterexample: with the literal converter of the scenario,
`s => Number(s) * 2` applied to any operand, `toEnumValue({Two:2}, '1',
{convert:true, converter})` does not return `2`: the converter is applied
to both operands, so the candidate `2` doubles to `4` while the input
`'1'` doubles to `2`, and the lookup yields `undefined`. -/
theorem toEnumValue_literal_doubling_claim_false :
    toEnumValue twoEnum (.str "1")
      { convert := true, converter := some claimDoublingConverter } = .ok none ∧
    ¬ toEnumValue twoEnum (.str "1")
      { convert := true, converter := some claimDoublingConverter } =
        .ok (some (.num (.int 2))) := by
  exact ⟨by decide, by decide⟩

/-- C1 (amended): with the doubling converter the repository's test
actually uses — numeric strings are parsed and doubled, numbers pass
through unchanged — `toEnumValue({Two:2}, '1', {convert:true, converter})`
returns the enum value `2`. -/
theorem toEnumValue_test_doubling_eq_two :
    toEnumValue twoEnum (.str "1")
      { convert := true, converter := some testDoublingConverter } =
      .ok (some (.num (.int 2))) := by
  decide

/-- C2 counterexample: with a normalize function that rewrites the number
`1` to the string `"A"` and with `ignoreCase` set, the code's predicate on
the operands `(1, "a")` answers `false` — the expected type was fixed as
"number" from the raw candidate, so case-folding is skipped — while the
specification's pipeline, which reads the expected type off the normalized
candidate `"A"`, answers `true`. -/
theorem equalFn_type_from_normalized_false :
    equalFn { normalize := some stringifyOneNormalize, ignoreCase := true }
      (.num (.int 1)) (.str "a") = false ∧
    equalFnSpecNormalizedType { normalize := some stringifyOneNormalize, ignoreCase := true }
      (.num (.int 1)) (.str "a") = true ∧
    ¬ equalFn { normalize := some stringifyOneNormalize, ignoreCase := true }
        (.num (.int 1)) (.str "a") =
      equalFnSpecNormalizedType { normalize := some stringifyOneNormalize, ignoreCase := true }
        (.num (.int 1)) (.str "a") := by
  exact ⟨by decide, by decide, by decide⟩

/-- C2 (amended): for every options configuration and every pair of
operands, the predicate built by `equalFn` coincides with the
specification's normalize–convert–case-fold–compare pipeline in which the
expected comparison type is determined from the RAW candidate `a`, before
normalization: it is "string" exactly when `a` is a string and "number"
otherwise, and the input `b` never influences it. -/
theorem equalFn_eq_specRawType (options : EnumOptions) (a b : JSValue) :
    equalFn options a b = equalFnSpecRawType options a b := by
  unfold equalFn equalFnSpecRawType specPipeline specCaseFoldStep specConvertStep
    createConverter passthrough
  cases ha : a.isString with
  | false =>
    cases hcv : options.convert with
    | false => simp [ha, hcv]
    | true => cases hcc : options.converter <;> simp [ha, hcv, hcc]
  | true =>
    cases hic : options.ignoreCase with
    | false =>
      cases hcv : options.convert with
      | false => simp [ha, hic, hcv]
      | true => cases hcc : options.converter <;> simp [ha, hic, hcv, hcc]
    | true =>
      cases hcv : options.convert with
      | false => simp [ha, hic, hcv]
      | true => cases hcc : options.converter <;> simp [ha, hic, hcv, hcc]

/-- C3 counterexample: the default conversion to target type "number" does
NOT treat a `NaN` operand as conversion failure yielding `undefined`: a
number short-circuits the converter's `typeof` guard, so `NaN` passes
through unchanged.  (The observable consequence: with `convert` set, two
`NaN` operands still compare unequal via strict equality, instead of
comparing as two equal `undefined` results.) -/
theorem defaultConverter_nan_passthrough :
    defaultConverter (.num .nan) .number = .num .nan ∧
    ¬ defaultConverter (.num .nan) .number = .undef ∧
    equalFn { convert := true } (.num .nan) (.num .nan) = false := by
  exact ⟨by decide, by decide, by decide⟩

/-- C3 (amended): when `convert` is set with no custom converter, the
default conversion to target type "number" passes every number through
unchanged — including `NaN`, which is not turned into `undefined` (it is
the helper `toNumber`, only reached for non-number inputs, that maps a
`NaN` number to `undefined`); string inputs are parsed by trimming and
numeric parse, yielding `undefined` for an empty-after-trim or unparseable
string; and consequently, for a numeric enum containing the value 1,
`toEnumValue(obj, "1", {convert:true})` is `1`,
`toEnumValue(obj, "abc", {convert:true})` is `undefined` (no match), and
`toEnumValue(obj, NaN, {convert:true})` is `undefined` (a `NaN` input
passes through and never strictly equals anything). -/
theorem defaultConversion_number_behavior :
    (∀ n : JSNum, defaultConverter (.num n) .number = .num n) ∧
    toNumber (.num .nan) = .undef ∧
    (∀ n : JSNum, ¬ n = .nan → toNumber (.num n) = .num n) ∧
    (∀ s : String, (jsTrim s).data.length = 0 → toNumber (.str s) = .undef) ∧
    (∀ s : String, jsStringToNumber (jsTrim s) = .nan → toNumber (.str s) = .undef) ∧
    (∀ s : String, 0 < (jsTrim s).data.length → ¬ jsStringToNumber (jsTrim s) = .nan →
      toNumber (.str s) = .num (jsStringToNumber (jsTrim s))) ∧
    toEnumValue oneEnum (.str "1") { convert := true } = .ok (some (.num (.int 1))) ∧
    toEnumValue oneEnum (.str "abc") { convert := true } = .ok none ∧
    toEnumValue oneEnum (.num .nan) { convert := true } = .ok none := by
  refine ⟨fun n => rfl, rfl, ?_, ?_, ?_, ?_, by decide, by decide, by decide⟩
  · intro n hn
    cases n with
    | int i => rfl
    | nan => exact absurd rfl hn
  · intro s h
    simp [toNumber, h]
  · intro s h
    simp [toNumber, h]
  · intro s h1 h2
    have h1' : ¬ (jsTrim s).length = 0 := by
      simp only [String.length]
      omega
    simp [toNumber, h1', h2]

/-- C3 witness: the amended description evaluated at concrete inputs — a
plain number passes through `toNumber`, a whitespace-only string and an
unparseable string fail to `undefined`, and a parseable padded string
trims and parses. -/
theorem defaultConversion_number_behavior_witness :
    toNumber (.num (.int 5)) = .num (.int 5) ∧
    toNumber (.str "   ") = .undef ∧
    toNumber (.str "x1") = .undef ∧
    toNumber (.str " 42 ") = .num (.int 42) := by
  obtain ⟨-, -, h3, h4, h5, h6, -, -, -⟩ := defaultConversion_number_behavior
  refine ⟨h3 (.int 5) (by decide), h4 "   " (by decide), h5 "x1" (by decide), ?_⟩
  have := h6 " 42 " (by decide) (by decide)
  rw [this]
  decide

/-- C4: on a valid mapping with pairwise-distinct keys, whenever two
distinct keys carry values that both match the searched value under the
configured predicate, the singular `enumKeyByValue` throws
"Enum values are not unique. Cannot get key by value.", while the plural
`enumKeysByValue` returns exactly the keys of all matching entries, in the
mapping's key-iteration order — in particular both duplicate keys. -/
theorem enumKeyByValue_duplicate_behavior (enumObj : EnumObj) (options : EnumOptions)
    (V : EnumValue) (k1 k2 : String) (v1 v2 : EnumValue)
    (hnd : (objKeys enumObj).Nodup)
    (h1 : (k1, v1) ∈ enumObj) (h2 : (k2, v2) ∈ enumObj) (hne : k1 ≠ k2)
    (he1 : equalFn options v1.toJS V.toJS = true)
    (he2 : equalFn options v2.toJS V.toJS = true) :
    enumKeyByValue enumObj (some V) options =
      .error "Enum values are not unique. Cannot get key by value." ∧
    enumKeysByValue enumObj (some V) options =
      (enumObj.filter (fun p => equalFn options p.2.toJS V.toJS)).map Prod.fst ∧
    k1 ∈ enumKeysByValue enumObj (some V) options ∧
    k2 ∈ enumKeysByValue enumObj (some V) options := by
  have hmem1 : k1 ∈ (objKeys enumObj).filter
      (fun k => equalFn options (objGetJS enumObj k) V.toJS) := by
    rw [List.mem_filter]
    exact ⟨List.mem_map.mpr ⟨(k1, v1), h1, rfl⟩, by rw [objGetJS_of_mem hnd h1]; exact he1⟩
  have hmem2 : k2 ∈ (objKeys enumObj).filter
      (fun k => equalFn options (objGetJS enumObj k) V.toJS) := by
    rw [List.mem_filter]
    exact ⟨List.mem_map.mpr ⟨(k2, v2), h2, rfl⟩, by rw [objGetJS_of_mem hnd h2]; exact he2⟩
  exact ⟨pickUnique_error_of_two hmem1 hmem2 hne,
    keys_filter_objGet (fun x => equalFn options x V.toJS) hnd, hmem1, hmem2⟩

/-- C4 witness: on the color mapping with `Blue` and `AlsoBlue` both
`"#0000ff"`, the singular key lookup throws and the plural lookup lists
both keys in iteration order. -/
theorem enumKeyByValue_duplicate_behavior_witness :
    enumKeyByValue colorEnum (some (.str "#0000ff")) {} =
      .error "Enum values are not unique. Cannot get key by value." ∧
    enumKeysByValue colorEnum (some (.str "#0000ff")) {} = ["Blue", "AlsoBlue"] := by
  have h := enumKeyByValue_duplicate_behavior colorEnum {} (.str "#0000ff")
    "Blue" "AlsoBlue" (.str "#0000ff") (.str "#0000ff")
    (by decide) (by decide) (by decide) (by decide) (by decide) (by decide)
  exact ⟨h.1, by decide⟩

/-- C5 counterexample: the mapping `{A: NaN}` is a valid EnumLike whose
values are pairwise distinct, yet the round trip fails: looking the key
`"A"` up yields the value `NaN`, and looking that value back up finds no
key at all (`NaN` is never strictly equal to anything), rather than
returning `"A"`. -/
theorem roundtrip_nan_fails :
    enumValueByKey [("A", EnumValue.num .nan)] (some "A") {} = .ok (some (.num .nan)) ∧
    enumKeyByValue [("A", EnumValue.num .nan)] (some (.num .nan)) {} = .ok none ∧
    ¬ enumKeyByValue [("A", EnumValue.num .nan)] (some (.num .nan)) {} = .ok (some "A") := by
  exact ⟨by decide, by decide, by decide⟩

/-- C5 (amended): for every valid EnumLike with pairwise-distinct keys and
pairwise-distinct values, and for every key `K` of the mapping whose value
is not `NaN`, the round trip under default options holds:
`enumValueByKey` resolves `K` to its value and `enumKeyByValue` resolves
that value back to `K`. -/
theorem enumKeyByValue_roundtrip (enumObj : EnumObj) (K : String) (v : EnumValue)
    (hk : (objKeys enumObj).Nodup) (hv : (objValues enumObj).Nodup)
    (hm : (K, v) ∈ enumObj) (hnn : v.isNaNv = false) :
    enumValueByKey enumObj (some K) {} = .ok (some v) ∧
    enumKeyByValue enumObj (some v) {} = .ok (some K) := by
  constructor
  · have hkeys : (objKeys enumObj).filter (fun x => equalFn {} (.str x) (.str K)) = [K] := by
      have hcongr : ∀ x ∈ objKeys enumObj,
          equalFn {} (.str x) (.str K) = (x == K) := by
        intro x _
        rw [equalFn_default]
        rfl
      rw [List.filter_congr hcongr]
      exact filter_beq_of_nodup hk (List.mem_map.mpr ⟨(K, v), hm, rfl⟩)
    simp only [enumValueByKey, hkeys, pickUnique]
    rw [find?_key_of_mem hk hm]
    rfl
  · have hkeys : (objKeys enumObj).filter (fun k => equalFn {} (objGetJS enumObj k) v.toJS)
        = [K] := by
      have hcongr : ∀ k ∈ objKeys enumObj,
          equalFn {} (objGetJS enumObj k) v.toJS = strictEq (objGetJS enumObj k) v.toJS := by
        intro k _
        rw [equalFn_default]
      rw [List.filter_congr hcongr,
        keys_filter_objGet (fun x => strictEq x v.toJS) hk,
        filter_strictEq_of_nodup hv hm hnn]
      rfl
    simp only [enumKeyByValue, hkeys, pickUnique]

/-- C5 witness: the round trip evaluated on a two-member color mapping at
the key `"Red"`. -/
theorem enumKeyByValue_roundtrip_witness :
    enumValueByKey [("Red", EnumValue.str "#ff0000"), ("Green", EnumValue.str "#00ff00")]
      (some "Red") {} = .ok (some (.str "#ff0000")) ∧
    enumKeyByValue [("Red", EnumValue.str "#ff0000"), ("Green", EnumValue.str "#00ff00")]
      (some (.str "#ff0000")) {} = .ok (some "Red") :=
  enumKeyByValue_roundtrip
    [("Red", EnumValue.str "#ff0000"), ("Green", EnumValue.str "#00ff00")]
    "Red" (.str "#ff0000") (by decide) (by decide) (by decide) (by decide)

/-- C6: for every valid EnumLike and every options configuration, a `null`
or `undefined` search term short-circuits every base lookup and every
wrapper to `undefined` (or the empty list, or `false`): the result is a
constant independent of the mapping and of the options, so no entry is
ever scanned or compared, and nothing is thrown. -/
theorem null_input_short_circuits (enumObj : EnumObj) (options : EnumOptions) :
    enumValueByValue enumObj none options = .ok none ∧
    enumValueByKey enumObj none options = .ok none ∧
    enumKeyByKey enumObj none options = .ok none ∧
    enumKeyByValue enumObj none options = .ok none ∧
    enumKeysByValue enumObj none options = [] ∧
    isEnumValue enumObj .nullV options = false ∧
    isEnumValue enumObj .undef options = false ∧
    isEnumKey enumObj .nullV options = false ∧
    isEnumKey enumObj .undef options = false ∧
    toEnumValue enumObj .nullV options = .ok none ∧
    toEnumValue enumObj .undef options = .ok none ∧
    toEnumKey enumObj .nullV options = .ok none ∧
    toEnumKey enumObj .undef options = .ok none ∧
    toEnumKeys enumObj .nullV options = [] ∧
    toEnumKeys enumObj .undef options = [] :=
  ⟨rfl, rfl, rfl, rfl, rfl, rfl, rfl, rfl, rfl, rfl, rfl, rfl, rfl, rfl, rfl⟩

/-- C7: the validator pair agrees everywhere: every input that is `null`
or of non-object `typeof` makes `isEnumLike` answer `false` and
`validateEnumLike` throw "The enum object is required."; every object all
of whose own string-keyed property values are strings or numbers satisfies
both; and in general `isEnumLike` answers `true` exactly when
`validateEnumLike` succeeds. -/
theorem isEnumLike_validateEnumLike_agree :
    (∀ x : JSInput, x = .prim .nullV ∨ ¬ jsTypeof x = "object" →
      isEnumLike x = false ∧ validateEnumLike x = .error "The enum object is required.") ∧
    (∀ entries : List (String × JSInput),
      (∀ p ∈ entries, jsTypeof p.2 = "string" ∨ jsTypeof p.2 = "number") →
      isEnumLike (.obj entries) = true ∧ validateEnumLike (.obj entries) = .ok ()) ∧
    (∀ x : JSInput, isEnumLike x = true ↔ validateEnumLike x = .ok ()) := by
  have hguard_obj : ∀ entries : List (String × JSInput),
      (jsFalsy (.obj entries) || jsTypeof (.obj entries) != "object") = false := by
    intro entries
    simp [jsFalsy, jsTypeof]
  have hguard_arr : ∀ elems : List JSInput,
      (jsFalsy (.arr elems) || jsTypeof (.arr elems) != "object") = false := by
    intro elems
    simp [jsFalsy, jsTypeof]
  have hgood : ∀ v : JSInput, (jsTypeof v = "string" ∨ jsTypeof v = "number") ↔
      isStringOrNumberType v = true := by
    intro v
    simp [isStringOrNumberType]
  refine ⟨?_, ?_, ?_⟩
  · intro x hx
    cases x with
    | prim v =>
      constructor
      · simp [isEnumLike, prim_guard_true v]
      · simp [validateEnumLike, prim_guard_true v]
    | obj entries =>
      rcases hx with h | h
      · exact absurd h (by simp)
      · exact absurd rfl h
    | arr elems =>
      rcases hx with h | h
      · exact absurd h (by simp)
      · exact absurd rfl h
  · intro entries hall
    have hall2 : entries.all (fun p => isStringOrNumberType p.2) = true :=
      List.all_eq_true.mpr (fun p hp => (hgood p.2).mp (hall p hp))
    constructor
    · simp [isEnumLike, hguard_obj entries, ownEntries, hall2]
    · simp only [validateEnumLike, hguard_obj entries, Bool.false_eq_true, if_false,
        ownEntries]
      exact (validateEntries_ok_iff entries).mpr hall2
  · intro x
    cases x with
    | prim v =>
      simp [isEnumLike, validateEnumLike, prim_guard_true v]
    | obj entries =>
      simp only [isEnumLike, validateEnumLike, hguard_obj entries, Bool.false_eq_true,
        if_false, ownEntries]
      exact (validateEntries_ok_iff entries).symm
    | arr elems =>
      simp only [isEnumLike, validateEnumLike, hguard_arr elems, Bool.false_eq_true,
        if_false, ownEntries]
      exact (validateEntries_ok_iff (arrEntriesFrom 0 elems)).symm

/-- C7 witness: the agreement evaluated at concrete inputs — at `null`
(rejected with "The enum object is required."), at a number, and at a
small well-formed object (accepted by both forms). -/
theorem isEnumLike_validateEnumLike_agree_witness :
    isEnumLike (.prim .nullV) = false ∧
    validateEnumLike (.prim .nullV) = .error "The enum object is required." ∧
    validateEnumLike (.prim (.num (.int 7))) = .error "The enum object is required." ∧
    isEnumLike (.obj [("A", .prim (.num (.int 1))), ("B", .prim (.str "b"))]) = true ∧
    validateEnumLike (.obj [("A", .prim (.num (.int 1))), ("B", .prim (.str "b"))]) = .ok () := by
  obtain ⟨h1, h2, -⟩ := isEnumLike_validateEnumLike_agree
  have ha := h1 (.prim .nullV) (Or.inl rfl)
  have hb := h1 (.prim (.num (.int 7))) (Or.inr (by decide))
  have hc := h2 [("A", .prim (.num (.int 1))), ("B", .prim (.str "b"))] (by decide)
  exact ⟨ha.1, ha.2, hb.2, hc.1, hc.2⟩

/-- C8: case-folding under `ignoreCase` applies only when the expected
type is "string": on the operands `(1, "1")` the predicate answers `false`
(without `convert`, the type mismatch fails strict equality), on
`("A", "a")` it answers `true`; and whenever the candidate is not a
string — expected type "number" — the predicate is insensitive to the
`ignoreCase` flag altogether: operands are compared immediately after
conversion. -/
theorem equalFn_ignoreCase_only_strings :
    equalFn { ignoreCase := true } (.num (.int 1)) (.str "1") = false ∧
    equalFn { ignoreCase := true } (.str "A") (.str "a") = true ∧
    (∀ (options : EnumOptions) (a b : JSValue), a.isString = false →
      equalFn options a b =
        equalFn { normalize := options.normalize, ignoreCase := false,
                  convert := options.convert, converter := options.converter } a b) := by
  refine ⟨by decide, by decide, ?_⟩
  intro options a b ha
  unfold equalFn
  simp [ha]

/-- C8 witness: the `ignoreCase`-insensitivity of numeric comparisons
evaluated at a concrete non-string candidate. -/
theorem equalFn_ignoreCase_only_strings_witness :
    equalFn { ignoreCase := true, convert := true } (.num (.int 2)) (.str "2") =
      equalFn { normalize := none, ignoreCase := false, convert := true,
                converter := none } (.num (.int 2)) (.str "2") :=
  equalFn_ignoreCase_only_strings.2.2
    { ignoreCase := true, convert := true } (.num (.int 2)) (.str "2") rfl

/-- C9: the defensive wrappers refine the base lookups: on every search
argument that is a typed enum value or `undefined`, `toEnumValue` produces
exactly the outcome of `enumValueByValue` (same value, same `undefined`,
same throw) and `toEnumKeys` produces exactly the list of
`enumKeysByValue`; and on every string search argument `toEnumKey`
produces exactly the outcome of `enumKeyByKey`. -/
theorem wrappers_refine_base_lookups (enumObj : EnumObj) (options : EnumOptions)
    (v : Option EnumValue) (s : String) :
    toEnumValue enumObj (optToJS v) options = enumValueByValue enumObj v options ∧
    toEnumKeys enumObj (optToJS v) options = enumKeysByValue enumObj v options ∧
    toEnumKey enumObj (.str s) options = enumKeyByKey enumObj (some s) options := by
  refine ⟨?_, ?_, ?_⟩
  · cases v with
    | none => rfl
    | some x => cases x <;> rfl
  · cases v with
    | none => rfl
    | some x => cases x <;> rfl
  · cases hc : options.convert with
    | false => simp [toEnumKey, enumKeyByKey, hc, JSValue.isNullish]
    | true => simp [toEnumKey, enumKeyByKey, hc, JSValue.isNullish, jsToString]

/-- C10: every array whose elements are all strings or numbers — the empty
array included — is accepted as a valid EnumLike: an array is a truthy
value of object `typeof` whose own enumerable keys are the index strings
carrying the elements as values, so `isEnumLike` answers `true` and
`validateEnumLike` succeeds. -/
theorem isEnumLike_accepts_arrays (elems : List JSInput)
    (hall : ∀ e ∈ elems, jsTypeof e = "string" ∨ jsTypeof e = "number") :
    isEnumLike (.arr elems) = true ∧ validateEnumLike (.arr elems) = .ok () := by
  have hguard : (jsFalsy (.arr elems) || jsTypeof (.arr elems) != "object") = false := by
    simp [jsFalsy, jsTypeof]
  have hall2 : elems.all (fun e => isStringOrNumberType e) = true :=
    List.all_eq_true.mpr (fun e he => by
      rcases hall e he with h | h <;> simp [isStringOrNumberType, h])
  constructor
  · simp [isEnumLike, hguard, ownEntries, arrEntriesFrom_all, hall2]
  · simp only [validateEnumLike, hguard, Bool.false_eq_true, if_false, ownEntries]
    exact (validateEntries_ok_iff (arrEntriesFrom 0 elems)).mpr
      ((arrEntriesFrom_all 0 elems).trans hall2)

/-- C10 witness: the empty array and a small mixed string/number array are
both accepted by both validator forms. -/
theorem isEnumLike_accepts_arrays_witness :
    isEnumLike (.arr []) = true ∧ validateEnumLike (.arr []) = .ok () ∧
    isEnumLike (.arr [.prim (.str "a"), .prim (.num (.int 2))]) = true ∧
    validateEnumLike (.arr [.prim (.str "a"), .prim (.num (.int 2))]) = .ok () := by
  have h1 := isEnumLike_accepts_arrays [] (by simp)
  have h2 := isEnumLike_accepts_arrays [.prim (.str "a"), .prim (.num (.int 2))] (by decide)
  exact ⟨h1.1, h1.2, h2.1, h2.2⟩
